import Mathlib

/-!
Shallow embedding of the integer-math utilities (thrust/detail/integer_math.h)
and the execution-policy allocator/dependency decorators
(thrust/thrust/detail/execute_with_allocator_fwd.h) of this repository,
with theorems settling the specification claims about them.

Machine-integer conventions: unsigned integer values of bit-width `W` are
modelled as `Nat` with explicit `% 2 ^ W` where conversions matter.  For an
unsigned type, `std::numeric_limits<Integer>::digits = W`.  The literal `1`
in the source is `int`-typed (32-bit, two's complement); its left shift is
modelled with wrap-around semantics (the value is `2 ^ i mod 2 ^ 32`
reinterpreted as a signed 32-bit value), which is the C++20-defined result
for `i ≤ 31` and the natural truncation completion for `i ≥ 32`, where the
C++ shift is undefined.
-/

namespace Thrust

/-- Value of the `int`-typed C++ expression `1 << i` under two's-complement
wrap-around: `2 ^ i mod 2 ^ 32` reinterpreted as a signed 32-bit integer.
For `i ≤ 30` this is `2 ^ i`, for `i = 31` it is `-2 ^ 31`, and for
`i ≥ 32` the bit is shifted out entirely and the value is `0`. -/
def shiftOneInt (i : Nat) : Int :=
  if 2 ^ i % 2 ^ 32 < 2 ^ 31 then ((2 ^ i % 2 ^ 32 : Nat) : Int)
  else ((2 ^ i % 2 ^ 32 : Nat) : Int) - 2 ^ 32

/-- Value of the mask `(1 << i)` after the usual arithmetic conversion to the
unsigned `W`-bit operand type of `x` in the test `(1 << i) & x` of `clz`:
conversion of a signed `int` to an unsigned `W`-bit type is reduction mod
`2 ^ W` (for `W > 32` this sign-extends the negative value `1 << 31`).
For the narrow promoted types (`W ≤ 16`) the `&` actually happens at `int`
width, but since `x < 2 ^ W` the bits of the mask at or above `W` cannot
meet a set bit of `x`, so reducing the mask mod `2 ^ W` gives the same
result of the `&`. -/
def clzMask (W i : Nat) : Nat :=
  (shiftOneInt i % ((2 : Int) ^ W)).toNat

/-- The scan loop of `clz`: `for(int i = num_non_sign_bits; i >= 0; --i)
if((1 << i) & x) return num_non_sign_bits - i;` followed by the fall-through
`return num_non_sign_bits + 1;`.  `clzAux W x i` is the state of the loop
with counter `i`; note the loop starts at `i = digits`, not `digits - 1`. -/
def clzAux (W x : Nat) : Nat → Nat
  | 0 => if clzMask W 0 &&& x ≠ 0 then W else W + 1
  | i + 1 => if clzMask W (i + 1) &&& x ≠ 0 then W - (i + 1) else clzAux W x i

/-- `clz` from integer_math.h for an unsigned `W`-bit integer type
(`num_non_sign_bits = digits = W`). -/
def clz (W x : Nat) : Nat :=
  clzAux W x W

/-- `is_power_of_2` from integer_math.h: `return 0 == (x & (x - 1));`.
For unsigned `x = 0` the C++ subtraction wraps to the all-ones value and the
`&` yields `0`; with `Nat` truncated subtraction `0 - 1 = 0` the `&` also
yields `0`, so the function agrees with the source at every input. -/
def is_power_of_2 (x : Nat) : Bool :=
  0 == x &&& (x - 1)

/-- `log2` from integer_math.h: `return digits - clz(x);`, for an unsigned
`W`-bit type.  Stated over `Int` so that the `x = 0` case (where
`clz x = W + 1` exceeds `W`) keeps the signed-type value `-1` described by
the spec; for `x ≥ 1` the value is non-negative and agrees with the
unsigned computation. -/
def log2 (W x : Nat) : Int :=
  (W : Int) - (clz W x : Int)

/-- `log2_ri` from integer_math.h: `result = log2(x); if(!is_power_of_2(x))
++result; return result;`. -/
def log2_ri (W x : Nat) : Int :=
  log2 W x + (if is_power_of_2 x then 0 else 1)

/-- `is_odd` from integer_math.h: `return 1 & x;` (nonzero test on
conversion to `bool`). -/
def is_odd (x : Nat) : Bool :=
  decide (1 &&& x ≠ 0)

/-- The allocator decorator from execute_with_allocator_fwd.h.  In the
source, `execute_with_allocator<Allocator, BaseSystem>` derives from
`super_t = BaseSystem<execute_with_allocator<Allocator, BaseSystem>>` and
embeds `Allocator alloc` by value; the value content of a decorated policy
is the base-policy subobject together with the embedded allocator, modelled
as a structure with those two fields (`σ` is the value content of the base
system, `α` the allocator type).  The two-argument constructor
`execute_with_allocator(super_t const& super, Allocator alloc_)` is the
anonymous constructor `mk`. -/
structure execute_with_allocator (σ α : Type) : Type where
  super : σ
  alloc : α

/-- Accessor `get_allocator()` from execute_with_allocator_fwd.h: returns a
(mutable reference to) the embedded allocator `alloc`; at the value level,
the embedded allocator itself. -/
def get_allocator {σ α : Type} (p : execute_with_allocator σ α) : α :=
  p.alloc

/-- Modelled from the spec: `execute_with_allocator_and_dependencies` is
defined in thrust/detail/execute_with_dependencies.h, which is not among
the given sources; per spec §3/§4.3 it stores the allocator together with
the ordered Dependency List produced by capture conversion ("an ordered
sequence of Dependency Handles; insertion order is preserved"). -/
structure execute_with_allocator_and_dependencies (α η : Type) : Type where
  alloc : α
  dependencies : List η

/-- Variadic `after(Dependencies&&... dependencies)` from
execute_with_allocator_fwd.h: returns
`{alloc, capture_as_dependency(THRUST_FWD(dependencies))...}` — one capture
conversion per input, in input order.  `cap` is the external
`capture_as_dependency` collaborator and the variadic pack is modelled as
the list `deps`. -/
def after {σ α δ η : Type} (cap : δ → η) (p : execute_with_allocator σ α)
    (deps : List δ) : execute_with_allocator_and_dependencies α η :=
  { alloc := p.alloc, dependencies := deps.map cap }

/-- Variadic `rebind_after(Dependencies&&... dependencies)` from
execute_with_allocator_fwd.h: its body is
`{alloc, capture_as_dependency(THRUST_FWD(dependencies))...}`, the same as
`after`. -/
def rebind_after {σ α δ η : Type} (cap : δ → η) (p : execute_with_allocator σ α)
    (deps : List δ) : execute_with_allocator_and_dependencies α η :=
  { alloc := p.alloc, dependencies := deps.map cap }

/-- Modelled from the spec: the `std::tuple` overload of
`capture_as_dependency` lives in thrust/detail/execute_with_dependencies.h,
which is not among the given sources; per spec §4.3 the collection form
normalizes each element in order to the same ordered sequence as the
variadic form ("both forms must normalize to the same internal ordered
sequence and order"). -/
def capture_as_dependency_tuple {δ η : Type} (cap : δ → η) (deps : List δ) :
    List η :=
  deps.map cap

/-- Tuple-form `after(std::tuple<Dependencies...>& dependencies)` from
execute_with_allocator_fwd.h: returns
`{alloc, capture_as_dependency(dependencies)}`, the whole collection
normalized by a single call to the tuple overload of
`capture_as_dependency`. -/
def after_tuple {σ α δ η : Type} (cap : δ → η) (p : execute_with_allocator σ α)
    (deps : List δ) : execute_with_allocator_and_dependencies α η :=
  { alloc := p.alloc, dependencies := capture_as_dependency_tuple cap deps }

end Thrust

namespace Thrust

/-- Decidable finite check of the mask values actually used by the scan for
types no wider than `int`: for `W ≤ 32` and `j ≤ W`, the mask of the test at
loop counter `j` is exactly `2 ^ j` when `j < W` and `0` when `j = W`
(the top test of the loop, `1 << digits`, never fires). -/
theorem clzMask_small :
    ∀ W : Nat, W < 33 → ∀ j : Nat, j < 33 →
      (j ≤ W → clzMask W j = if j < W then 2 ^ j else 0) := by
  decide

theorem clzMask_spec {W j : Nat} (hW : W ≤ 32) (hj : j ≤ W) :
    clzMask W j = if j < W then 2 ^ j else 0 :=
  clzMask_small W (by omega) j (by omega) hj

theorem two_pow_and_ne_zero_iff (j x : Nat) :
    (2 ^ j &&& x ≠ 0) ↔ x.testBit j = true := by
  rw [Nat.two_pow_and]
  cases h : x.testBit j <;> simp [h]

/-- Highest set bit of a positive `x` is `Nat.log2 x`, as a `testBit` fact. -/
theorem testBit_log2_self {x : Nat} (hx : 0 < x) :
    x.testBit (Nat.log2 x) = true := by
  have h1 : 2 ^ Nat.log2 x ≤ x := Nat.log2_self_le (by omega)
  have h2 : x < 2 ^ (Nat.log2 x + 1) := Nat.lt_log2_self
  rw [pow_succ] at h2
  have hdiv : x / 2 ^ Nat.log2 x = 1 := Nat.div_eq_of_lt_le (by omega) (by omega)
  rw [Nat.testBit_to_div_mod, hdiv]
  decide

/-- The scan of `clz` below the top of the loop: once the counter has come
down to at least the highest set bit of `x`, the scan returns
`W - Nat.log2 x`. -/
theorem clzAux_eq_of_le {W x : Nat} (hW : W ≤ 32) (hx : 0 < x)
    (hxW : x < 2 ^ W) :
    ∀ i, i ≤ W → Nat.log2 x ≤ i → clzAux W x i = W - Nat.log2 x := by
  have hlogW : Nat.log2 x < W := (Nat.log2_lt (by omega)).mpr hxW
  intro i
  induction i with
  | zero =>
    intro _ hlog
    have hlog0 : Nat.log2 x = 0 := by omega
    have hbit : x.testBit 0 = true := by
      have := testBit_log2_self hx
      rwa [hlog0] at this
    have hmask : clzMask W 0 = 2 ^ 0 := by
      rw [clzMask_spec hW (by omega), if_pos (by omega)]
    simp only [clzAux, hmask]
    rw [if_pos ((two_pow_and_ne_zero_iff 0 x).mpr hbit), hlog0]
    omega
  | succ i ih =>
    intro hiW hlog
    rcases Nat.lt_or_ge (Nat.log2 x) (i + 1) with hlt | hge
    · have hbit : x.testBit (i + 1) = false := by
        apply Nat.testBit_lt_two_pow
        calc x < 2 ^ (Nat.log2 x + 1) := Nat.lt_log2_self
        _ ≤ 2 ^ (i + 1) := Nat.pow_le_pow_right (by omega) (by omega)
      have hmask : clzMask W (i + 1) = if i + 1 < W then 2 ^ (i + 1) else 0 :=
        clzMask_spec hW hiW
      have hand : clzMask W (i + 1) &&& x = 0 := by
        rw [hmask]
        rcases Nat.lt_or_ge (i + 1) W with h | h
        · rw [if_pos h, Nat.two_pow_and, hbit]
          simp
        · rw [if_neg (by omega)]
          exact Nat.zero_and x
      simp only [clzAux]
      rw [if_neg (by simp [hand]), ih (by omega) (by omega)]
    · have heq : Nat.log2 x = i + 1 := by omega
      have hbit : x.testBit (i + 1) = true := by
        have := testBit_log2_self hx
        rwa [heq] at this
      have hmask : clzMask W (i + 1) = 2 ^ (i + 1) := by
        rw [clzMask_spec hW hiW, if_pos (by omega)]
      simp only [clzAux, hmask]
      rw [if_pos ((two_pow_and_ne_zero_iff (i + 1) x).mpr hbit), heq]

/-- For an unsigned type no wider than `int` and `0 < x < 2 ^ W`, the code
returns `W - Nat.log2 x`, i.e. `digits - i` for highest set bit `i` (one
more than a conventional leading-zero count within `W` bits, because the
loop starts at `i = digits`). -/
theorem clz_eq {W x : Nat} (hW : W ≤ 32) (hx : 0 < x) (hxW : x < 2 ^ W) :
    clz W x = W - Nat.log2 x :=
  clzAux_eq_of_le hW hx hxW W (Nat.le_refl W)
    (by have := (Nat.log2_lt (by omega)).mpr hxW; omega)

/-- Characterization of the bit trick `x & (x - 1) == 0` over `Nat`:
it holds exactly when `x` is zero or has exactly one set bit. -/
theorem and_pred_eq_zero_iff : ∀ x : Nat, x &&& (x - 1) = 0 ↔ x = 0 ∨ ∃ k, x = 2 ^ k := by
  intro x
  induction x using Nat.binaryRec with
  | z => simp
  | f b n ih =>
    cases b with
    | true =>
      have h1 : Nat.bit true n = 2 * n + 1 := rfl
      have h2 : Nat.bit false n = 2 * n := rfl
      have hsub : Nat.bit true n - 1 = Nat.bit false n := by rw [h1, h2]; omega
      have hland : Nat.bit true n &&& Nat.bit false n = Nat.bit false (n &&& n) :=
        Nat.bitwise_bit rfl true n false n
      constructor
      · intro h
        rw [hsub, hland, Nat.and_self] at h
        rw [h2] at h
        right
        exact ⟨0, by rw [h1]; omega⟩
      · rintro (h | ⟨k, hk⟩)
        · rw [h1] at h; omega
        · rw [hsub, hland, Nat.and_self, h2]
          rw [h1] at hk
          cases k with
          | zero => omega
          | succ s =>
            have : (2 : Nat) ^ (s + 1) = 2 * 2 ^ s := by ring
            omega
    | false =>
      rcases Nat.eq_zero_or_pos n with hn | hn
      · subst hn; simp [Nat.bit]
      · have h1 : Nat.bit false n = 2 * n := rfl
        have h2 : Nat.bit true (n - 1) = 2 * (n - 1) + 1 := rfl
        have hsub : Nat.bit false n - 1 = Nat.bit true (n - 1) := by rw [h1, h2]; omega
        have hland : Nat.bit false n &&& Nat.bit true (n - 1) = Nat.bit false (n &&& (n - 1)) :=
          Nat.bitwise_bit rfl false n true (n - 1)
        rw [hsub, hland]
        have hb : Nat.bit false (n &&& (n - 1)) = 2 * (n &&& (n - 1)) := rfl
        rw [hb, h1]
        constructor
        · intro h
          have hz : n &&& (n - 1) = 0 := by omega
          rcases ih.mp hz with h0 | ⟨k, hk⟩
          · omega
          · right; exact ⟨k + 1, by subst hk; ring⟩
        · rintro (h | ⟨k, hk⟩)
          · omega
          · cases k with
            | zero => omega
            | succ s =>
              have h2s : (2 : Nat) ^ (s + 1) = 2 * 2 ^ s := by ring
              have hn2 : n = 2 ^ s := by omega
              have hz : n &&& (n - 1) = 0 := ih.mpr (Or.inr ⟨s, hn2⟩)
              omega

/-- Unfolding equation for one iteration of the scan loop. -/
theorem clzAux_succ (W x i : Nat) :
    clzAux W x (i + 1) =
      if clzMask W (i + 1) &&& x ≠ 0 then W - (i + 1) else clzAux W x i :=
  rfl

/-- For loop counters at or above the bit-width of `int`, the `int`-typed
`1 << i` has shifted the bit out entirely and the mask is `0`. -/
theorem shiftOneInt_hi (k : Nat) : shiftOneInt (32 + k) = 0 := by
  have h : (2 : Nat) ^ (32 + k) % 2 ^ 32 = 0 := by
    rw [pow_add]
    exact Nat.mul_mod_right _ _
  unfold shiftOneInt
  rw [h]
  norm_num

theorem clzMask_hi (k : Nat) : clzMask 64 (32 + k) = 0 := by
  unfold clzMask
  rw [shiftOneInt_hi]
  norm_num

/-- The scan over a 64-bit operand skips every counter from `64` down to
`32`: those masks are all `0`. -/
theorem clzAux_hi (x : Nat) : ∀ k, clzAux 64 x (31 + k) = clzAux 64 x 31 := by
  intro k
  induction k with
  | zero => rfl
  | succ k ih =>
    have h31 : 31 + (k + 1) = (31 + k) + 1 := by omega
    rw [h31, clzAux_succ]
    have h32 : (31 + k) + 1 = 32 + k := by omega
    rw [h32, clzMask_hi, Nat.zero_and]
    simpa using ih

/-- For a 64-bit operand whose set bits all lie at positions `≥ 32`
(`x % 2 ^ 32 = 0`), the sign-extended mask of `1 << 31`
(value `2 ^ 64 - 2 ^ 31`, bits 31–63) covers every set bit of `x`. -/
theorem mask_and_high (x : Nat) (hx64 : x < 2 ^ 64) (hlow : x % 2 ^ 32 = 0) :
    (2 ^ 64 - 2 ^ 31) &&& x = x := by
  obtain ⟨y, hy⟩ : (2 : Nat) ^ 32 ∣ x := Nat.dvd_of_mod_eq_zero hlow
  have hx' : x = y <<< 32 := by
    rw [Nat.shiftLeft_eq, hy, mul_comm]
  apply Nat.eq_of_testBit_eq
  intro i
  rw [Nat.testBit_and]
  cases hxi : x.testBit i with
  | false => simp
  | true =>
    have hge : 32 ≤ i := by
      rw [hx', Nat.testBit_shiftLeft] at hxi
      rcases Nat.lt_or_ge i 32 with h | h
      · rw [decide_eq_false (by omega)] at hxi
        simp at hxi
      · exact h
    have hlt64 : i < 64 := by
      by_contra hge64
      push_neg at hge64
      have hf : x.testBit i = false :=
        Nat.testBit_lt_two_pow
          (lt_of_lt_of_le hx64 (Nat.pow_le_pow_right (by omega) hge64))
      rw [hf] at hxi
      exact Bool.noConfusion hxi
    have hmask : (2 ^ 64 - 2 ^ 31 : Nat) = (2 ^ 33 - 1) <<< 31 := by
      rw [Nat.shiftLeft_eq]
      norm_num
    have h31 : i ≥ 31 := by omega
    have h33 : i - 31 < 33 := by omega
    rw [hmask, Nat.testBit_shiftLeft, Nat.testBit_two_pow_sub_one]
    simp [h31, h33]

/-- What `clz` actually computes on a 64-bit operand with all set bits at
positions `≥ 32`: the scan falls through the zero masks from `64` down to
`32`, then hits the sign-extended mask at counter `31` and returns
`digits - 31 = 33` — a wrong leading-zero count, but not the zero
sentinel `digits + 1`. -/
theorem clz_wide (x : Nat) (hx : x ≠ 0) (hx64 : x < 2 ^ 64)
    (hlow : x % 2 ^ 32 = 0) : clz 64 x = 33 := by
  have hskip := clzAux_hi x 33
  norm_num at hskip
  have hmask31 : clzMask 64 31 = 2 ^ 64 - 2 ^ 31 := by decide
  have h31 : (31 : Nat) = 30 + 1 := by norm_num
  unfold clz
  rw [hskip, h31, clzAux_succ, ← h31, hmask31, mask_and_high x hx64 hlow,
    if_pos hx]

/-- Restatement of the bit-trick characterization through `is_power_of_2`
(shared helper for the claims about `is_power_of_2` and `log2_ri`). -/
theorem is_power_of_2_iff (x : Nat) :
    is_power_of_2 x = true ↔ x = 0 ∨ ∃ k, x = 2 ^ k := by
  unfold is_power_of_2
  rw [beq_iff_eq, eq_comm]
  exact and_pred_eq_zero_iff x

/-- Claim C1 (counterexample): the claimed contract fails on the code.  For
the unsigned 8-bit type (`digits = 8`) at `x = 128` (highest set bit at
position 7), the code returns `clz 128 = 8 - 7 = 1` because the scan starts
at `i = digits`, so the claimed bracket
`2 ^ (W - clz x - 1) ≤ x < 2 ^ (W - clz x)` — which would need
`clz 128 = 0` — is violated: `128 < 2 ^ 7` is false. -/
theorem claim_C1_counterexample :
    clz 8 128 = 1 ∧
      ¬(2 ^ (8 - clz 8 128 - 1) ≤ 128 ∧ 128 < 2 ^ (8 - clz 8 128)) := by
  decide

/-- Claim C1 (amended): for an unsigned type of bit-width `W` no wider than
`int` (`W ≤ 32`) and `0 < x < 2 ^ W` with highest set bit at position `i`
(`i = Nat.log2 x`), `clz x` returns `digits - i` — one less leading-zero
slot than the claimed `digits - i - 1`, because the scan starts at
`i = digits` — equivalently `2 ^ (W - clz x) ≤ x < 2 ^ (W - clz x + 1)`.
For types wider than `int` even this fails (see claim C10). -/
theorem claim_C1_amended (W x : Nat) (hW : W ≤ 32) (hx : 0 < x)
    (hxW : x < 2 ^ W) :
    clz W x = W - Nat.log2 x ∧
      2 ^ (W - clz W x) ≤ x ∧ x < 2 ^ (W - clz W x + 1) := by
  have hclz : clz W x = W - Nat.log2 x := clz_eq hW hx hxW
  have hlogW : Nat.log2 x < W := (Nat.log2_lt (by omega)).mpr hxW
  have hWc : W - clz W x = Nat.log2 x := by omega
  rw [hWc]
  exact ⟨hclz, Nat.log2_self_le (by omega), Nat.lt_log2_self⟩

/-- Witness for the amended claim C1 at `W = 8`, `x = 128`:
`clz 8 128 = 1` and `2 ^ 7 ≤ 128 < 2 ^ 8`. -/
theorem claim_C1_amended_witness :
    ((8 : Nat) ≤ 32 ∧ (0 : Nat) < 128 ∧ (128 : Nat) < 2 ^ 8) ∧
      (clz 8 128 = 8 - Nat.log2 128 ∧
        2 ^ (8 - clz 8 128) ≤ 128 ∧ 128 < 2 ^ (8 - clz 8 128 + 1)) :=
  ⟨⟨by decide, by decide, by decide⟩,
    claim_C1_amended 8 128 (by decide) (by decide) (by decide)⟩

/-- Claim C2: for identical inputs, the two legacy construction entry
points `after(deps...)` and `rebind_after(deps...)` yield policies with
identical embedded allocator and identical ordered dependency sequence. -/
theorem claim_C2 {σ α δ η : Type} (cap : δ → η)
    (p : execute_with_allocator σ α) (deps : List δ) :
    (after cap p deps).alloc = (rebind_after cap p deps).alloc ∧
      (after cap p deps).dependencies = (rebind_after cap p deps).dependencies :=
  ⟨rfl, rfl⟩

/-- Claim C3: decorating `decorate(P, A)` (the allocator decorator built by
the two-argument constructor) with dependencies `[h1, h2]` yields a policy
whose allocator is `A` and whose dependency sequence is exactly
`[cap h1, cap h2]` — one capture conversion per input, in input order. -/
theorem claim_C3 {σ α δ η : Type} (cap : δ → η) (P : σ) (A : α)
    (h1 h2 : δ) :
    (after cap (execute_with_allocator.mk P A) [h1, h2]).alloc = A ∧
      (after cap (execute_with_allocator.mk P A) [h1, h2]).dependencies =
        [cap h1, cap h2] :=
  ⟨rfl, rfl⟩

/-- Claim C4: `is_power_of_2 x` is true iff `x` has exactly one set bit
(`x = 2 ^ k`) or `x = 0` (the documented quirk of the bit trick
`0 == (x & (x - 1))`); in particular `is_power_of_2 0 = true`. -/
theorem claim_C4 (x : Nat) :
    is_power_of_2 x = true ↔ x = 0 ∨ ∃ k, x = 2 ^ k :=
  is_power_of_2_iff x

/-- Claim C5: `clz 0` returns exactly `digits + 1` as a sentinel (the loop
never finds a set bit and falls through), for every bit-width. -/
theorem claim_C5 (W : Nat) : clz W 0 = W + 1 := by
  have h : ∀ i, clzAux W 0 i = W + 1 := by
    intro i
    induction i with
    | zero => simp [clzAux, Nat.and_zero]
    | succ i ih => simp [clzAux_succ, Nat.and_zero, ih]
  exact h W

/-- Claim C6 (counterexample): the claim quantifies over every unsigned
`x ≥ 1`, but on the 64-bit type the `clz` defect (claim C10) propagates
through `log2 = digits - clz`: at `x = 2 ^ 40`, `clz` returns `33`, so
`log2_ri` returns `64 - 33 = 31` (`2 ^ 40` is an exact power of two, so no
increment), while the ceiling of the base-2 logarithm is `40`. -/
theorem claim_C6_counterexample :
    log2_ri 64 (2 ^ 40) = 31 ∧
      log2_ri 64 (2 ^ 40) ≠ (Nat.clog 2 (2 ^ 40) : Int) := by
  have h40 : (Nat.clog 2 (2 ^ 40) : Int) = 40 := by
    rw [Nat.clog_pow 2 40 (by norm_num)]
    norm_num
  refine ⟨by decide, ?_⟩
  rw [h40]
  decide

/-- Claim C6 (amended): for `1 ≤ x < 2 ^ W` on an unsigned type no wider
than `int` (`W ≤ 32` — the restriction forced by the counterexample above),
`log2_ri x` is the ceiling of the base-2 logarithm of `x` (`Nat.clog 2 x`,
which equals `log2 x` when `x` is an exact power of two and `log2 x + 1`
otherwise); in particular `log2_ri 1 = 0`, `log2_ri 5 = 3`,
`log2_ri 8 = 3`, `log2_ri 9 = 4` (shown at `W = 32`). -/
theorem claim_C6 (W x : Nat) (hW : W ≤ 32) (hx : 1 ≤ x) (hxW : x < 2 ^ W) :
    log2_ri W x = (Nat.clog 2 x : Int) ∧
      (log2_ri 32 1 = 0 ∧ log2_ri 32 5 = 3 ∧ log2_ri 32 8 = 3 ∧
        log2_ri 32 9 = 4) := by
  constructor
  · have hclz : clz W x = W - Nat.log2 x := clz_eq hW (by omega) hxW
    have hlogW : Nat.log2 x < W := (Nat.log2_lt (by omega)).mpr hxW
    unfold log2_ri log2
    rw [hclz]
    have h1 : ((W - Nat.log2 x : Nat) : Int) =
        (W : Int) - (Nat.log2 x : Int) := by
      rw [Nat.cast_sub (by omega)]
    rw [h1]
    by_cases hp : is_power_of_2 x = true
    · rw [if_pos hp]
      obtain h0 | ⟨k, hk⟩ := (is_power_of_2_iff x).mp hp
      · omega
      · subst hk
        rw [Nat.log2_two_pow, Nat.clog_pow 2 k (by norm_num)]
        ring
    · rw [if_neg hp]
      have hne : ∀ k, x ≠ 2 ^ k := fun k hk =>
        hp ((is_power_of_2_iff x).mpr (Or.inr ⟨k, hk⟩))
      have hself : 2 ^ Nat.log2 x ≤ x := Nat.log2_self_le (by omega)
      have hlow : 2 ^ Nat.log2 x < x :=
        lt_of_le_of_ne hself (fun h => hne _ h.symm)
      have hup : Nat.clog 2 x ≤ Nat.log2 x + 1 :=
        (Nat.le_pow_iff_clog_le (by norm_num)).mp
          (le_of_lt Nat.lt_log2_self)
      have hdown : Nat.log2 x + 1 ≤ Nat.clog 2 x := by
        by_contra hcon
        push_neg at hcon
        have hle : Nat.clog 2 x ≤ Nat.log2 x := by omega
        have := (Nat.le_pow_iff_clog_le (by norm_num)).mpr hle
        omega
      have hclog : Nat.clog 2 x = Nat.log2 x + 1 := by omega
      rw [hclog]
      push_cast
      ring
  · exact ⟨by decide, by decide, by decide, by decide⟩

/-- Witness for claim C6 at `W = 32`, `x = 5`. -/
theorem claim_C6_witness :
    ((32 : Nat) ≤ 32 ∧ (1 : Nat) ≤ 5 ∧ (5 : Nat) < 2 ^ 32) ∧
      (log2_ri 32 5 = (Nat.clog 2 5 : Int) ∧
        (log2_ri 32 1 = 0 ∧ log2_ri 32 5 = 3 ∧ log2_ri 32 8 = 3 ∧
          log2_ri 32 9 = 4)) :=
  ⟨⟨by decide, by decide, by decide⟩,
    claim_C6 32 5 (by decide) (by decide) (by decide)⟩

/-- Claim C7: the variadic form and the single-collection (tuple) form of
dependency capture produce the same decorated policy, with the same
internal ordered dependency sequence. -/
theorem claim_C7 {σ α δ η : Type} (cap : δ → η)
    (p : execute_with_allocator σ α) (h1 h2 : δ) :
    after cap p [h1, h2] = after_tuple cap p [h1, h2] :=
  rfl

/-- Claim C8: constructing the allocator decorator from `(P, A)` embeds `A`
by value, and `get_allocator` returns exactly that embedded allocator,
equal to `A` by value. -/
theorem claim_C8 {σ α : Type} (P : σ) (A : α) :
    get_allocator (execute_with_allocator.mk P A) = A ∧
      (execute_with_allocator.mk P A).alloc = A :=
  ⟨rfl, rfl⟩

/-- Claim C9: decoration is pure composition.  The constructor and the
dependency entry points are const value constructions: the source policy
components are embedded unchanged (`super = P`), the same base `P` can be
decorated again with a different allocator, and the same allocator
decorator value can be decorated independently with different dependency
sequences, each construction depending only on its inputs. -/
theorem claim_C9 {σ α δ η : Type} (cap : δ → η) (P : σ) (A A' : α)
    (d d' : List δ) :
    (execute_with_allocator.mk P A).super = P ∧
      (execute_with_allocator.mk P A').super = P ∧
      after cap (execute_with_allocator.mk P A) d =
        { alloc := A, dependencies := d.map cap } ∧
      rebind_after cap (execute_with_allocator.mk P A) d' =
        { alloc := A, dependencies := d'.map cap } :=
  ⟨rfl, rfl, rfl, rfl⟩

/-- Claim C10 (counterexample): the claim says that for a 64-bit operand
whose set bits all lie at positions `≥ 32` the scan finds no set bit and
returns the zero sentinel `digits + 1 = 65`.  In fact at `x = 2 ^ 40` the
sign-extended `int` mask of `1 << 31` (bits 31–63 after conversion to the
64-bit operand type) meets bit 40, the scan stops at `i = 31`, and the code
returns `64 - 31 = 33`, not `65`. -/
theorem claim_C10_counterexample :
    clz 64 (2 ^ 40) = 33 ∧ clz 64 (2 ^ 40) ≠ 64 + 1 := by
  decide

/-- Claim C10 (amended): `clz` tests each candidate bit with the int-typed
expression `(1 << i)`, so for a 64-bit operand `x ≠ 0` whose set bits all
lie at positions at or above the bit-width of `int` (`x % 2 ^ 32 = 0`), the
masks for counters `64` down to `32` are zero and the scan finds no bit
there; the scan then stops at counter `31`, whose mask is the sign-extended
value `-2 ^ 31` covering bits 31–63, and `clz x` returns `digits - 31 = 33`
— a wrong leading-zero count for every such `x`, though not the zero
sentinel `digits + 1`. -/
theorem claim_C10_amended (x : Nat) (hx : x ≠ 0) (hx64 : x < 2 ^ 64)
    (hlow : x % 2 ^ 32 = 0) :
    clz 64 x = 33 ∧ clz 64 x ≠ 64 + 1 := by
  have h := clz_wide x hx hx64 hlow
  exact ⟨h, by omega⟩

/-- Witness for the amended claim C10 at `x = 2 ^ 40`. -/
theorem claim_C10_amended_witness :
    ((2 ^ 40 : Nat) ≠ 0 ∧ (2 ^ 40 : Nat) < 2 ^ 64 ∧
        (2 ^ 40 : Nat) % 2 ^ 32 = 0) ∧
      (clz 64 (2 ^ 40) = 33 ∧ clz 64 (2 ^ 40) ≠ 64 + 1) :=
  ⟨⟨by decide, by decide, by decide⟩,
    claim_C10_amended (2 ^ 40) (by decide) (by decide) (by decide)⟩

end Thrust
